import Mathlib

/-!
Shallow embedding of the `grab` download engine core (`response.go`) and of
the CLI argument handling (`main`), with theorems settling the claims about
its specification.

Machine integers (`uint64` byte counters, `int32` done flag) are modelled as
`Nat`: no claim involves values anywhere near `2^31`/`2^64`, so wraparound is
irrelevant. `float64` values are modelled by `GoFloat` below, which captures
the IEEE-754 special values Go's float division produces (division of a
nonzero value by zero yields an infinity, `0/0` yields NaN); finite quotients
are carried exactly as rationals. I/O (body reads, file writes, `os.Open`,
`io.Copy` into the hash) is modelled as an environment of explicit outcomes.
-/

/-- A Go `error` value of the kinds the engine can produce.
`checksumMismatch` carries the hex-encoded computed digest, as built by
`newGrabError(errChecksumMismatch, "Checksum mismatch: %v", hex.EncodeToString(sum))`. -/
inductive GoError where
  | readErr (code : Nat)
  | writeFail (code : Nat)
  | openErr (code : Nat)
  | hashCopyErr (code : Nat)
  | checksumMismatch (hexDigest : List Char)
deriving DecidableEq, Repr

/-- The error component of one `Read` call on the response body:
`none` = no error, `eof` = `io.EOF`, `fatal e` = any other error. -/
inductive ReadErr where
  | eof
  | fatal (e : GoError)
deriving DecidableEq, Repr

/-- One result of `c.HTTPResponse.Body.Read(buffer[:])`: the `n` bytes read
(`data`, with `n = data.length`) together with the returned error. -/
structure ReadResult where
  data : List Nat
  err : Option ReadErr
deriving DecidableEq, Repr

/-- Go's `hex.EncodeToString` on one byte: two lowercase hex digits. -/
def hexDigit (n : Nat) : Char :=
  if n < 10 then Char.ofNat (48 + n) else Char.ofNat (87 + n)

/-- Hex encoding of a byte sequence, as `hex.EncodeToString` produces it. -/
def hexEncodeToString (bs : List Nat) : List Char :=
  (bs.map (fun b => [hexDigit (b / 16 % 16), hexDigit (b % 16)])).flatten

/-- The `Request` fields the copy pipeline reads: `Hash` (the hash algorithm,
modelled as the digest function it computes over the hashed bytes, `none` when
the Go field is nil), `Checksum` (expected digest, `none` when nil), and
`RemoveOnError`. -/
structure Request where
  Hash : Option (List Nat → List Nat)
  Checksum : Option (List Nat)
  RemoveOnError : Bool

/-- The mutable state of one transfer: the `Response` fields the copy/close
path touches, together with a model of the destination file on disk
(`fileContents`, `fileExists`), which in Go lives in the OS.
`erra` is the `Error` field; `ended` records that `End` was stamped. -/
structure Response where
  bytesTransferred : Nat
  doneFlag : Nat
  erra : Option GoError
  writerOpen : Bool
  ended : Bool
  fileContents : List Nat
  fileExists : Bool
deriving DecidableEq, Repr

/-- The outcomes of the I/O the pipeline performs, one per call site:
`body i` is the result of the `i`-th body read, `writeOutcome i` the outcome
of the `i`-th `c.writer.Write` (`none` = success), `openOutcome` the outcome
of `os.Open(c.Filename)` in the checksum stage, `hashCopyOutcome` the outcome
of `io.Copy(c.Request.Hash, f)`. -/
structure Env where
  body : Nat → ReadResult
  writeOutcome : Nat → Option GoError
  openOutcome : Option GoError
  hashCopyOutcome : Option GoError

/-- `(*Response).close(err)`: releases the writer, records the result error,
stamps the end time, increments `doneFlag` once, and returns the error. -/
def Response.close (c : Response) (err : Option GoError) :
    Response × Option GoError :=
  ({ c with
      writerOpen := false
      erra := err
      ended := true
      doneFlag := c.doneFlag + 1 }, err)

/-- How one iteration of the copy loop ends. -/
inductive StepResult where
  | next (s : Response)
  | finished (s : Response)
  | aborted (e : GoError) (s : Response)
deriving DecidableEq, Repr

/-- One iteration of the copy loop in `(*Response).copy`, given the read
result `r` and the write outcome `w` of this iteration: a non-EOF read error
returns immediately (bytes discarded); otherwise the `n` read bytes are
written (a write failure returns with that error, progress untouched); then
the progress counter advances by `n`; `io.EOF` then closes the writer and
ends the loop. -/
def loopStep (r : ReadResult) (w : Option GoError) (s : Response) : StepResult :=
  match r.err with
  | some (ReadErr.fatal e) => StepResult.aborted e s
  | _ =>
    match w with
    | some we => StepResult.aborted we s
    | none =>
      let s' := { s with
        fileContents := s.fileContents ++ r.data
        bytesTransferred := s.bytesTransferred + r.data.length }
      match r.err with
      | some ReadErr.eof => StepResult.finished { s' with writerOpen := false }
      | _ => StepResult.next s'

/-- The `Response` carried by a `StepResult`, whatever the outcome. -/
def StepResult.state : StepResult → Response
  | StepResult.next s => s
  | StepResult.finished s => s
  | StepResult.aborted _ s => s

/-- The error of a read result when it is fatal (non-nil and not `io.EOF`),
mirroring the guard `err != nil && err != io.EOF`. -/
def fatalOf : Option ReadErr → Option GoError
  | some (ReadErr.fatal e) => some e
  | _ => none

/-- How the copy loop exited: `finished` = EOF reached (`complete = true`),
`aborted e` = an early `return c.close(e)`. -/
inductive LoopExit where
  | finished
  | aborted (e : GoError)
deriving DecidableEq, Repr

/-- The `for complete == false` loop of `(*Response).copy`, reading the body
at indices `i, i+1, ...`. `fuel` bounds the number of iterations unrolled;
`none` means the bound was hit before the loop exited. -/
def copyLoop (env : Env) : Nat → Nat → Response → Option (LoopExit × Response)
  | 0, _, _ => none
  | fuel + 1, i, s =>
    match loopStep (env.body i) (env.writeOutcome i) s with
    | StepResult.aborted e s' => some (LoopExit.aborted e, s')
    | StepResult.finished s' => some (LoopExit.finished, s')
    | StepResult.next s' => copyLoop env fuel (i + 1) s'

/-- The checksum-validation stage of `(*Response).copy` (runs after the loop
set `complete = true`), followed by the final `return c.close(...)`: it is a
no-op finalizing with nil unless both `Hash` and `Checksum` are set; otherwise
it opens the file, hashes it, compares digests, deletes the file on mismatch
when `RemoveOnError` is set, and finalizes with the matching error. -/
def checksumStage (env : Env) (req : Request) (s : Response) :
    Response × Option GoError :=
  match req.Hash, req.Checksum with
  | some hash, some expected =>
    match env.openOutcome with
    | some e => s.close (some e)
    | none =>
      match env.hashCopyOutcome with
      | some e => s.close (some e)
      | none =>
        let sum := hash s.fileContents
        if sum = expected then
          s.close none
        else
          let s' := if req.RemoveOnError then { s with fileExists := false } else s
          s'.close (some (GoError.checksumMismatch (hexEncodeToString sum)))
  | _, _ => s.close none

/-- `(*Response).copy`: run the streaming loop, then on an early return
finalize with that error, and on normal loop completion run the checksum
stage (which itself finalizes). `none` only when `fuel` iterations did not
suffice for the loop to exit. -/
def Response.copy (env : Env) (req : Request) (fuel : Nat) (s : Response) :
    Option (Response × Option GoError) :=
  match copyLoop env fuel 0 s with
  | none => none
  | some (LoopExit.aborted e, s') => some (s'.close (some e))
  | some (LoopExit.finished, s') => some (checksumStage env req s')

/-- A `float64` value as Go's arithmetic can produce it here: an exact finite
rational, an infinity, or NaN. -/
inductive GoFloat where
  | finite (q : ℚ)
  | posInf
  | negInf
  | nan
deriving DecidableEq, Repr

/-- Go (IEEE-754) division of finite `float64` values: division by zero gives
NaN for a zero numerator and a signed infinity otherwise; finite quotients
are kept exact. -/
def goDiv (x y : ℚ) : GoFloat :=
  if y = 0 then
    if x = 0 then GoFloat.nan
    else if 0 < x then GoFloat.posInf
    else GoFloat.negInf
  else GoFloat.finite (x / y)

/-- `(*Response).Progress`: 0 when `Size == 0`, else
`float64(bytesTransferred) / float64(Size)`. -/
def Progress (bytesTransferred size : Nat) : GoFloat :=
  if size = 0 then GoFloat.finite 0
  else goDiv (bytesTransferred : ℚ) (size : ℚ)

/-- `(*Response).AverageBytesPerSecond`:
`float64(BytesTransferred()) / Duration().Seconds()`, with the duration given
in (rational) seconds. -/
def AverageBytesPerSecond (bytesTransferred : Nat) (durationSeconds : ℚ) :
    GoFloat :=
  goDiv (bytesTransferred : ℚ) durationSeconds

/-- What the CLI `main` does with its flag-parsed positional arguments. -/
inductive CliOutcome where
  | usageExit (code : Nat)
  | run (urls : List String)
deriving DecidableEq, Repr

/-- The argument handling of `main`: with no positional argument it prints
usage and exits 1; otherwise it downloads `args[1:]`. -/
def mainArgs (args : List String) : CliOutcome :=
  if args.length < 1 then CliOutcome.usageExit 1
  else CliOutcome.run (args.drop 1)

/-- The loop exit a terminal read error produces: `io.EOF` ends the loop
normally, any other error aborts with that error. -/
def exitOf : ReadErr → LoopExit
  | ReadErr.eof => LoopExit.finished
  | ReadErr.fatal e => LoopExit.aborted e

/-- A fresh transfer state, as when the copy starts. -/
def resp0 : Response :=
  { bytesTransferred := 0
    doneFlag := 0
    erra := none
    writerOpen := true
    ended := false
    fileContents := []
    fileExists := true }

/-- A request with no checksum configured. -/
def reqNil : Request := { Hash := none, Checksum := none, RemoveOnError := false }

/-- An environment whose first body read delivers two bytes together with
`io.EOF` and whose I/O all succeeds. -/
def envEof2 : Env :=
  { body := fun _ => { data := [7, 8], err := some ReadErr.eof }
    writeOutcome := fun _ => none
    openOutcome := none
    hashCopyOutcome := none }

/-- The loop-exit state `envEof2` produces from `resp0`. -/
def s1Eof : Response :=
  { bytesTransferred := 2
    doneFlag := 0
    erra := none
    writerOpen := false
    ended := false
    fileContents := [7, 8]
    fileExists := true }

/-- An environment whose body delivers three bytes with no error but whose
destination writes all fail. -/
def envWriteFail : Env :=
  { body := fun _ => { data := [1, 2, 3], err := none }
    writeOutcome := fun _ => some (GoError.writeFail 5)
    openOutcome := none
    hashCopyOutcome := none }

/-- An environment whose first body read delivers one byte together with a
fatal (non-EOF) read error. -/
def envFatal : Env :=
  { body := fun _ => { data := [4], err := some (ReadErr.fatal (GoError.readErr 3)) }
    writeOutcome := fun _ => none
    openOutcome := none
    hashCopyOutcome := none }

/-- An environment whose body first yields a zero-length errorless read and
then `io.EOF`, with all writes succeeding. -/
def envZeroThenEof : Env :=
  { body := fun i =>
      if i = 0 then { data := [], err := none }
      else { data := [9], err := some ReadErr.eof }
    writeOutcome := fun _ => none
    openOutcome := none
    hashCopyOutcome := none }

/-- A request whose hash algorithm digests a byte list to its length and
whose expected digest will not match it, with `RemoveOnError` set. -/
def reqMismatch : Request :=
  { Hash := some (fun l => [l.length % 256])
    Checksum := some [99]
    RemoveOnError := true }

/-- An environment whose first body read delivers bytes `[1, 2]` together
with `io.EOF` and whose I/O all succeeds. -/
def envEofData12 : Env :=
  { body := fun _ => { data := [1, 2], err := some ReadErr.eof }
    writeOutcome := fun _ => none
    openOutcome := none
    hashCopyOutcome := none }

/-- The loop-exit state `envEofData12` produces from `resp0`. -/
def s1Data12 : Response :=
  { bytesTransferred := 2
    doneFlag := 0
    erra := none
    writerOpen := false
    ended := false
    fileContents := [1, 2]
    fileExists := true }

/-! ## Helper lemmas -/

theorem loopStep_doneFlag (r : ReadResult) (w : Option GoError) (s : Response) :
    ((loopStep r w s).state).doneFlag = s.doneFlag := by
  rcases r with ⟨data, _ | (_ | e)⟩ <;> rcases w with _ | we <;>
    simp [loopStep, StepResult.state]

theorem copyLoop_succ_of_next (env : Env) (fuel i : Nat) (s s1 : Response)
    (h : loopStep (env.body i) (env.writeOutcome i) s = StepResult.next s1) :
    copyLoop env (fuel + 1) i s = copyLoop env fuel (i + 1) s1 := by
  simp only [copyLoop, h]

theorem copyLoop_succ_of_finished (env : Env) (fuel i : Nat) (s s1 : Response)
    (h : loopStep (env.body i) (env.writeOutcome i) s = StepResult.finished s1) :
    copyLoop env (fuel + 1) i s = some (LoopExit.finished, s1) := by
  simp only [copyLoop, h]

theorem copyLoop_succ_of_aborted (env : Env) (fuel i : Nat) (s s1 : Response)
    (e : GoError)
    (h : loopStep (env.body i) (env.writeOutcome i) s = StepResult.aborted e s1) :
    copyLoop env (fuel + 1) i s = some (LoopExit.aborted e, s1) := by
  simp only [copyLoop, h]

theorem copyLoop_doneFlag (env : Env) (fuel : Nat) :
    ∀ i s ex s', copyLoop env fuel i s = some (ex, s') → s'.doneFlag = s.doneFlag := by
  induction fuel with
  | zero => intro i s ex s' h; simp [copyLoop] at h
  | succ fuel ih =>
    intro i s ex s' h
    rcases hstep : loopStep (env.body i) (env.writeOutcome i) s with s1 | s1 | ⟨e, s1⟩
    · have h1 : s1.doneFlag = s.doneFlag := by
        have := loopStep_doneFlag (env.body i) (env.writeOutcome i) s
        rw [hstep] at this; exact this
      rw [copyLoop_succ_of_next env fuel i s s1 hstep] at h
      rw [ih (i + 1) s1 ex s' h, h1]
    · have h1 : s1.doneFlag = s.doneFlag := by
        have := loopStep_doneFlag (env.body i) (env.writeOutcome i) s
        rw [hstep] at this; exact this
      rw [copyLoop_succ_of_finished env fuel i s s1 hstep] at h
      simp only [Option.some.injEq, Prod.mk.injEq] at h
      obtain ⟨rfl, rfl⟩ := h
      exact h1
    · have h1 : s1.doneFlag = s.doneFlag := by
        have := loopStep_doneFlag (env.body i) (env.writeOutcome i) s
        rw [hstep] at this; exact this
      rw [copyLoop_succ_of_aborted env fuel i s s1 e hstep] at h
      simp only [Option.some.injEq, Prod.mk.injEq] at h
      obtain ⟨rfl, rfl⟩ := h
      exact h1

theorem checksumStage_doneFlag (env : Env) (req : Request) (s : Response) :
    (checksumStage env req s).1.doneFlag = s.doneFlag + 1 := by
  obtain ⟨rh, rc, roe⟩ := req
  rcases rh with _ | hash <;> rcases rc with _ | expected <;>
    simp only [checksumStage, Response.close]
  rcases env.openOutcome with _ | e
  · rcases env.hashCopyOutcome with _ | e2
    · split_ifs <;> simp [Response.close]
    · simp [Response.close]
  · simp [Response.close]

/-! ## Claim theorems -/

/-- C1: every completed execution of the copy pipeline routes through the
finalizer `close` exactly once, so the completion latch `doneFlag` is
incremented exactly once, on every exit path. -/
theorem copy_finalizes_once (env : Env) (req : Request) (fuel : Nat)
    (s : Response) (out : Response × Option GoError)
    (h : Response.copy env req fuel s = some out) :
    out.1.doneFlag = s.doneFlag + 1 := by
  unfold Response.copy at h
  rcases hloop : copyLoop env fuel 0 s with _ | ⟨ex, s1⟩ <;> rw [hloop] at h
  · cases h
  · have hd : s1.doneFlag = s.doneFlag := copyLoop_doneFlag env fuel 0 s ex s1 hloop
    cases ex with
    | aborted e =>
      obtain rfl : out = s1.close (some e) := by simpa using h.symm
      simp [Response.close, hd]
    | finished =>
      obtain rfl : out = checksumStage env req s1 := by simpa using h.symm
      rw [checksumStage_doneFlag, hd]

theorem copy_finalizes_once_witness :
    Response.copy envEof2 reqNil 1 resp0 =
      some ({ s1Eof with ended := true, doneFlag := 1 }, none) ∧
    ({ s1Eof with ended := true, doneFlag := 1 } : Response).doneFlag =
      resp0.doneFlag + 1 :=
  ⟨by decide,
   copy_finalizes_once envEof2 reqNil 1 resp0
     ({ s1Eof with ended := true, doneFlag := 1 }, none) (by decide)⟩

/-- C8: `Progress` returns bytes-transferred divided by total size, and
returns exactly 0 (a finite zero, not an error and not NaN) whenever the size
is unknown (`Size == 0`), for every byte count. -/
theorem progress_zero_size (b s : Nat) :
    Progress b 0 = GoFloat.finite 0 ∧
    (s ≠ 0 → Progress b s = GoFloat.finite ((b : ℚ) / (s : ℚ))) := by
  constructor
  · simp [Progress]
  · intro hs
    have hs' : ((s : ℚ)) ≠ 0 := by exact_mod_cast hs
    simp [Progress, goDiv, hs, hs']

theorem progress_zero_size_witness :
    Progress 7 0 = GoFloat.finite 0 ∧
    Progress 7 2 = GoFloat.finite ((7 : ℚ) / (2 : ℚ)) :=
  ⟨(progress_zero_size 7 2).1, (progress_zero_size 7 2).2 (by decide)⟩

/-- C10: `Progress` performs no clamping: for a known size it returns exactly
bytes / size, so when more bytes were transferred than the declared size the
result is strictly greater than 1. -/
theorem progress_no_clamp (b s : Nat) (hs : 0 < s) (hb : s < b) :
    Progress b s = GoFloat.finite ((b : ℚ) / (s : ℚ)) ∧
    1 < (b : ℚ) / (s : ℚ) := by
  have hs0 : s ≠ 0 := Nat.pos_iff_ne_zero.mp hs
  have hsq : (0 : ℚ) < (s : ℚ) := by exact_mod_cast hs
  refine ⟨?_, ?_⟩
  · simp [Progress, goDiv, hs0, hsq.ne']
  · rw [one_lt_div hsq]
    exact_mod_cast hb

theorem progress_no_clamp_witness :
    Progress 3 2 = GoFloat.finite ((3 : ℚ) / (2 : ℚ)) ∧
    1 < (3 : ℚ) / (2 : ℚ) :=
  progress_no_clamp 3 2 (by decide) (by decide)

/-- C5 counterexample: with zero bytes transferred and zero duration,
`AverageBytesPerSecond` yields NaN, which is neither (finite) 0 nor +∞, so
the code does not consistently return one of those two values at zero
duration. -/
theorem averageBytesPerSecond_nan :
    AverageBytesPerSecond 0 0 = GoFloat.nan ∧
    GoFloat.nan ≠ GoFloat.finite 0 ∧ GoFloat.nan ≠ GoFloat.posInf := by
  refine ⟨?_, by decide, by decide⟩
  simp [AverageBytesPerSecond, goDiv]

/-- C5 amended: `AverageBytesPerSecond` computes bytes-transferred divided by
elapsed seconds; at zero duration it does not crash, but the value is not one
consistent choice: it is +∞ when any bytes were transferred and NaN when none
were. -/
theorem averageBytesPerSecond_spec (b : Nat) (d : ℚ) :
    (d ≠ 0 → AverageBytesPerSecond b d = GoFloat.finite ((b : ℚ) / d)) ∧
    (0 < b → AverageBytesPerSecond b 0 = GoFloat.posInf) ∧
    AverageBytesPerSecond 0 0 = GoFloat.nan := by
  refine ⟨?_, ?_, by simp [AverageBytesPerSecond, goDiv]⟩
  · intro hd
    simp [AverageBytesPerSecond, goDiv, hd]
  · intro hb
    have hb0 : ((b : ℚ)) ≠ 0 := by exact_mod_cast Nat.pos_iff_ne_zero.mp hb
    have hbq : (0 : ℚ) < (b : ℚ) := by exact_mod_cast hb
    simp [AverageBytesPerSecond, goDiv, hb0, hbq]

theorem averageBytesPerSecond_spec_witness :
    AverageBytesPerSecond 4 2 = GoFloat.finite ((4 : ℚ) / (2 : ℚ)) ∧
    AverageBytesPerSecond 4 0 = GoFloat.posInf :=
  ⟨(averageBytesPerSecond_spec 4 2).1 (by decide),
   (averageBytesPerSecond_spec 4 0).2.1 (by decide)⟩

/-- C6 counterexample: invoked with exactly one positional argument, there is
no URL after the first positional token, yet `main` does not print usage and
exit 1 — it proceeds with an empty URL list. -/
theorem mainArgs_single_arg :
    mainArgs ["http://host/a"] = CliOutcome.run [] ∧
    mainArgs ["http://host/a"] ≠ CliOutcome.usageExit 1 := by
  constructor <;> decide

/-- C6 amended: the CLI requires at least one positional argument (not one
URL after the first token): with none it prints usage to standard error and
exits with code 1, and otherwise it passes `args[1:]` as the URLs — so with
exactly one positional argument it proceeds with an empty URL list. -/
theorem mainArgs_spec (args : List String) :
    (args = [] → mainArgs args = CliOutcome.usageExit 1) ∧
    (args ≠ [] → mainArgs args = CliOutcome.run (args.drop 1)) := by
  constructor
  · rintro rfl; rfl
  · intro h
    have : ¬ args.length < 1 := by
      simpa [Nat.lt_one_iff, List.length_eq_zero] using h
    simp [mainArgs, this]

theorem mainArgs_spec_witness :
    mainArgs [] = CliOutcome.usageExit 1 ∧
    mainArgs ["a", "b"] = CliOutcome.run ["b"] :=
  ⟨(mainArgs_spec []).1 rfl, (mainArgs_spec ["a", "b"]).2 (by decide)⟩

theorem loopStep_of_none (r : ReadResult) (s : Response) (h : r.err = none) :
    loopStep r none s = StepResult.next
      { s with
          fileContents := s.fileContents ++ r.data
          bytesTransferred := s.bytesTransferred + r.data.length } := by
  rcases r with ⟨data, rerr⟩
  subst h
  simp [loopStep]

theorem loopStep_of_eof (r : ReadResult) (s : Response)
    (h : r.err = some ReadErr.eof) :
    loopStep r none s = StepResult.finished
      { s with
          fileContents := s.fileContents ++ r.data
          bytesTransferred := s.bytesTransferred + r.data.length
          writerOpen := false } := by
  rcases r with ⟨data, rerr⟩
  subst h
  simp [loopStep]

theorem loopStep_of_fatal (r : ReadResult) (w : Option GoError) (s : Response)
    (e : GoError) (h : r.err = some (ReadErr.fatal e)) :
    loopStep r w s = StepResult.aborted e s := by
  rcases r with ⟨data, rerr⟩
  subst h
  simp [loopStep]

theorem copyLoop_none_of_no_terminal (env : Env) :
    ∀ (fuel i : Nat) (s : Response),
      (∀ j, j < fuel → (env.body (i + j)).err = none ∧ env.writeOutcome (i + j) = none) →
      copyLoop env fuel i s = none := by
  intro fuel
  induction fuel with
  | zero => intro i s _; rfl
  | succ fuel ih =>
    intro i s hno
    obtain ⟨hr0, hw0⟩ := hno 0 (Nat.succ_pos fuel)
    rw [Nat.add_zero] at hr0 hw0
    have hstep : loopStep (env.body i) (env.writeOutcome i) s = StepResult.next
        { s with
            fileContents := s.fileContents ++ (env.body i).data
            bytesTransferred := s.bytesTransferred + (env.body i).data.length } := by
      rw [hw0]; exact loopStep_of_none (env.body i) s hr0
    rw [copyLoop_succ_of_next env fuel i s _ hstep]
    apply ih
    intro j hj
    have h := hno (j + 1) (Nat.succ_lt_succ hj)
    have heq : i + (j + 1) = i + 1 + j := by omega
    rw [heq] at h
    exact h

theorem copyLoop_reaches_terminal (env : Env) :
    ∀ (m i : Nat) (s : Response) (t : ReadErr),
      (∀ j, j < m → (env.body (i + j)).err = none) →
      (∀ j, j ≤ m → env.writeOutcome (i + j) = none) →
      (env.body (i + m)).err = some t →
      (copyLoop env (m + 1) i s).map Prod.fst = some (exitOf t) := by
  intro m
  induction m with
  | zero =>
    intro i s t hpre hw ht
    rw [Nat.add_zero] at ht
    have hw0 : env.writeOutcome i = none := by
      have := hw 0 (Nat.le_refl 0); rwa [Nat.add_zero] at this
    rcases t with _ | e
    · have hstep : loopStep (env.body i) (env.writeOutcome i) s = StepResult.finished
          { s with
              fileContents := s.fileContents ++ (env.body i).data
              bytesTransferred := s.bytesTransferred + (env.body i).data.length
              writerOpen := false } := by
        rw [hw0]; exact loopStep_of_eof (env.body i) s ht
      rw [copyLoop_succ_of_finished env 0 i s _ hstep]
      rfl
    · have hstep := loopStep_of_fatal (env.body i) (env.writeOutcome i) s e ht
      rw [copyLoop_succ_of_aborted env 0 i s s e hstep]
      rfl
  | succ m ih =>
    intro i s t hpre hw ht
    have hr0 : (env.body i).err = none := by
      have := hpre 0 (Nat.succ_pos m); rwa [Nat.add_zero] at this
    have hw0 : env.writeOutcome i = none := by
      have := hw 0 (Nat.zero_le _); rwa [Nat.add_zero] at this
    have hstep : loopStep (env.body i) (env.writeOutcome i) s = StepResult.next
        { s with
            fileContents := s.fileContents ++ (env.body i).data
            bytesTransferred := s.bytesTransferred + (env.body i).data.length } := by
      rw [hw0]; exact loopStep_of_none (env.body i) s hr0
    rw [copyLoop_succ_of_next env (m + 1) i s _ hstep]
    apply ih
    · intro j hj
      have h := hpre (j + 1) (Nat.succ_lt_succ hj)
      have heq : i + (j + 1) = i + 1 + j := by omega
      rwa [heq] at h
    · intro j hj
      have h := hw (j + 1) (Nat.succ_le_succ hj)
      have heq : i + (j + 1) = i + 1 + j := by omega
      rwa [heq] at h
    · have heq : i + (m + 1) = i + 1 + m := by omega
      rwa [heq] at ht

/-- C2: in the streaming copy loop, a read of `n` bytes without a fatal error
writes all `n` bytes to the destination and only then advances the progress
counter by `n` (the same step performs both, and on a failed write neither
happens): a write failure aborts the step with that write error leaving the
state untouched, and the copy then finalizes immediately with that error, the
progress counter not advanced for those bytes. -/
theorem copy_write_then_progress (r : ReadResult) (s : Response) (e : GoError)
    (env : Env) (req : Request) (fuel : Nat)
    (hnf : fatalOf r.err = none)
    (hr : env.body 0 = r) (hw : env.writeOutcome 0 = some e) :
    (((loopStep r none s).state).fileContents = s.fileContents ++ r.data ∧
     ((loopStep r none s).state).bytesTransferred
       = s.bytesTransferred + r.data.length) ∧
    loopStep r (some e) s = StepResult.aborted e s ∧
    Response.copy env req (fuel + 1) s = some (s.close (some e)) ∧
    (s.close (some e)).1.bytesTransferred = s.bytesTransferred ∧
    (s.close (some e)).2 = some e := by
  rcases r with ⟨data, rerr⟩
  have hnf' : rerr = none ∨ rerr = some ReadErr.eof := by
    rcases rerr with _ | (_ | e') <;> simp_all [fatalOf]
  have habort : loopStep ⟨data, rerr⟩ (some e) s = StepResult.aborted e s := by
    rcases hnf' with rfl | rfl <;> simp [loopStep]
  have hab : loopStep (env.body 0) (env.writeOutcome 0) s = StepResult.aborted e s := by
    rw [hr, hw]; exact habort
  refine ⟨?_, habort, ?_, by simp [Response.close], rfl⟩
  · rcases hnf' with rfl | rfl <;> simp [loopStep, StepResult.state]
  · simp only [Response.copy]
    rw [copyLoop_succ_of_aborted env fuel 0 s s e hab]

theorem copy_write_then_progress_witness :
    ((loopStep { data := [1, 2, 3], err := none } none resp0).state).bytesTransferred
      = resp0.bytesTransferred + 3 ∧
    loopStep { data := [1, 2, 3], err := none } (some (GoError.writeFail 5)) resp0
      = StepResult.aborted (GoError.writeFail 5) resp0 ∧
    Response.copy envWriteFail reqNil 1 resp0
      = some (resp0.close (some (GoError.writeFail 5))) ∧
    (resp0.close (some (GoError.writeFail 5))).1.bytesTransferred
      = resp0.bytesTransferred :=
  have h := copy_write_then_progress { data := [1, 2, 3], err := none } resp0
    (GoError.writeFail 5) envWriteFail reqNil 0 rfl rfl rfl
  ⟨h.1.2, h.2.1, h.2.2.1, h.2.2.2.1⟩

/-- C9: a body read that returns bytes together with a fatal (non-EOF) error
discards those bytes: the loop step aborts with the read error with the state
untouched (nothing written, counter unchanged), and the copy finalizes with
that error, its final byte count and file contents excluding the discarded
bytes. -/
theorem copy_discards_fatal_read_bytes (r : ReadResult) (s : Response)
    (e : GoError) (env : Env) (req : Request) (fuel : Nat)
    (hn : 0 < r.data.length) (hf : r.err = some (ReadErr.fatal e))
    (hr : env.body 0 = r) :
    (∀ w, loopStep r w s = StepResult.aborted e s) ∧
    Response.copy env req (fuel + 1) s = some (s.close (some e)) ∧
    (s.close (some e)).1.bytesTransferred = s.bytesTransferred ∧
    (s.close (some e)).1.fileContents = s.fileContents := by
  have hstep : ∀ w, loopStep r w s = StepResult.aborted e s := fun w =>
    loopStep_of_fatal r w s e hf
  have hab : loopStep (env.body 0) (env.writeOutcome 0) s = StepResult.aborted e s := by
    rw [hr]; exact hstep (env.writeOutcome 0)
  refine ⟨hstep, ?_, rfl, rfl⟩
  simp only [Response.copy]
  rw [copyLoop_succ_of_aborted env fuel 0 s s e hab]

theorem copy_discards_fatal_read_bytes_witness :
    loopStep { data := [4], err := some (ReadErr.fatal (GoError.readErr 3)) } none resp0
      = StepResult.aborted (GoError.readErr 3) resp0 ∧
    Response.copy envFatal reqNil 1 resp0
      = some (resp0.close (some (GoError.readErr 3))) ∧
    (resp0.close (some (GoError.readErr 3))).1.bytesTransferred
      = resp0.bytesTransferred :=
  have h := copy_discards_fatal_read_bytes
    { data := [4], err := some (ReadErr.fatal (GoError.readErr 3)) } resp0
    (GoError.readErr 3) envFatal reqNil 0 (by decide) rfl rfl
  ⟨h.1 none, h.2.1, h.2.2.1⟩

/-- C3: when the body eventually yields EOF or an error — at index `k`, all
earlier reads errorless (zero-length ones included) and writes succeeding —
the copy loop terminates within `k + 1` iterations, finishing normally on EOF
and aborting with the error on a non-EOF read error; with only the `k`
non-terminal reads available the loop does not exit; and a zero-length
errorless read merely continues the loop with the state unchanged. -/
theorem copyLoop_terminates (env : Env) (k : Nat) (t : ReadErr) (s : Response)
    (hpre : ∀ j, j < k → (env.body j).err = none)
    (hw : ∀ j, j ≤ k → env.writeOutcome j = none)
    (ht : (env.body k).err = some t) :
    (copyLoop env (k + 1) 0 s).map Prod.fst = some (exitOf t) ∧
    copyLoop env k 0 s = none ∧
    ∀ s' : Response,
      loopStep { data := [], err := none } none s' = StepResult.next s' := by
  refine ⟨?_, ?_, ?_⟩
  · apply copyLoop_reaches_terminal env k 0 s t
    · intro j hj; rw [Nat.zero_add]; exact hpre j hj
    · intro j hj; rw [Nat.zero_add]; exact hw j hj
    · rw [Nat.zero_add]; exact ht
  · apply copyLoop_none_of_no_terminal env k 0 s
    intro j hj
    rw [Nat.zero_add]
    exact ⟨hpre j hj, hw j (Nat.le_of_lt hj)⟩
  · intro s'
    rcases s' with ⟨b, d, er, w, en, fc, fe⟩
    simp [loopStep]

theorem copyLoop_terminates_witness :
    (copyLoop envZeroThenEof 2 0 resp0).map Prod.fst = some (exitOf ReadErr.eof) ∧
    copyLoop envZeroThenEof 1 0 resp0 = none ∧
    loopStep { data := [], err := none } none resp0 = StepResult.next resp0 :=
  have h := copyLoop_terminates envZeroThenEof 1 ReadErr.eof resp0
    (by intro j hj
        have hj0 : j = 0 := by omega
        subst hj0; rfl)
    (fun j _ => rfl)
    (by decide)
  ⟨h.1, h.2.1, h.2.2 resp0⟩

/-- C4: with both a hash algorithm and an expected digest supplied and the
verification I/O succeeding, a digest mismatch finalizes the transfer with a
checksum-mismatch error carrying the computed digest hex-encoded, and the
destination file is absent after finalization if and only if `RemoveOnError`
was enabled; a normally finished copy loop routes into exactly this stage. -/
theorem checksum_mismatch_removes_iff (env : Env) (req : Request)
    (s1 : Response) (hash : List Nat → List Nat) (expected : List Nat)
    (hh : req.Hash = some hash) (hc : req.Checksum = some expected)
    (hopen : env.openOutcome = none) (hhc : env.hashCopyOutcome = none)
    (hne : hash s1.fileContents ≠ expected) (hfe : s1.fileExists = true) :
    (checksumStage env req s1).2
      = some (GoError.checksumMismatch (hexEncodeToString (hash s1.fileContents))) ∧
    (checksumStage env req s1).1.erra
      = some (GoError.checksumMismatch (hexEncodeToString (hash s1.fileContents))) ∧
    (checksumStage env req s1).1.doneFlag = s1.doneFlag + 1 ∧
    ((checksumStage env req s1).1.fileExists = false ↔ req.RemoveOnError = true) ∧
    (∀ fuel s0, copyLoop env fuel 0 s0 = some (LoopExit.finished, s1) →
      Response.copy env req fuel s0 = some (checksumStage env req s1)) := by
  obtain ⟨rh, rc, roe⟩ := req
  dsimp only at hh hc
  subst hh
  subst hc
  refine ⟨?_, ?_, ?_, ?_, ?_⟩
  · rcases roe <;> simp [checksumStage, hopen, hhc, hne, Response.close]
  · rcases roe <;> simp [checksumStage, hopen, hhc, hne, Response.close]
  · rcases roe <;> simp [checksumStage, hopen, hhc, hne, Response.close]
  · rcases roe <;> simp [checksumStage, hopen, hhc, hne, Response.close, hfe]
  · intro fuel s0 hloop
    simp only [Response.copy, hloop]

theorem checksum_mismatch_removes_iff_witness :
    (checksumStage envEofData12 reqMismatch s1Data12).2
      = some (GoError.checksumMismatch (hexEncodeToString [2])) ∧
    ((checksumStage envEofData12 reqMismatch s1Data12).1.fileExists = false ↔
      reqMismatch.RemoveOnError = true) ∧
    Response.copy envEofData12 reqMismatch 1 resp0
      = some (checksumStage envEofData12 reqMismatch s1Data12) :=
  have h := checksum_mismatch_removes_iff envEofData12 reqMismatch s1Data12
    (fun l => [l.length % 256]) [99] rfl rfl rfl rfl (by decide) rfl
  ⟨h.1, h.2.2.2.1, h.2.2.2.2 1 resp0 (by decide)⟩

/-- C7: checksum verification runs only when both a hash algorithm and an
expected digest are supplied: when either is missing, the stage after a
normally completed copy is exactly `close nil`, so the transfer finalizes
with a nil result error regardless of the file's actual content. -/
theorem no_checksum_nil_error (env : Env) (req : Request) (s1 : Response)
    (h : req.Hash = none ∨ req.Checksum = none) :
    checksumStage env req s1 = s1.close none ∧
    (s1.close none).2 = none ∧
    (s1.close none).1.erra = none ∧
    (∀ fuel s0, copyLoop env fuel 0 s0 = some (LoopExit.finished, s1) →
      Response.copy env req fuel s0 = some (s1.close none)) := by
  obtain ⟨rh, rc, roe⟩ := req
  dsimp only at h
  have hstage : checksumStage env ⟨rh, rc, roe⟩ s1 = s1.close none := by
    rcases h with rfl | rfl
    · rcases rc with _ | c <;> simp [checksumStage]
    · rcases rh with _ | hsh <;> simp [checksumStage]
  refine ⟨hstage, rfl, rfl, ?_⟩
  intro fuel s0 hloop
  simp only [Response.copy, hloop, hstage]

theorem no_checksum_nil_error_witness :
    checksumStage envEof2 reqNil s1Eof = s1Eof.close none ∧
    (s1Eof.close none).1.erra = none ∧
    Response.copy envEof2 reqNil 1 resp0 = some (s1Eof.close none) :=
  have h := no_checksum_nil_error envEof2 reqNil s1Eof (Or.inl rfl)
  ⟨h.1, h.2.2.1, h.2.2.2 1 resp0 (by decide)⟩
